import Mathlib

/-!
Verification of the signed-key-details subsystem
(src/composed/signed_key/shared.rs).

The data model and operations below are a shallow embedding of the Rust
source.  External collaborators (the cryptographic per-signature check,
the packet writer, the serialization of user ids and attributes, and the
inner certificate values of the public/secret variant) are not part of
the translated module; they are embedded as plain data or function
fields, as noted on each definition.
-/

namespace Rpgp

/-- A signature packet, as read by this module.  The subpacket accessors
the source calls (key_expiration_time, key_flags, the preferred-algorithm
lists, revocation_key, is_primary) are embedded as plain data fields.
The external cryptographic verification primitive (verify_key /
verify_certification, delegated to the signature implementation) is
embedded as the function field check, returning unit on success or an
error code on failure.  The bytes the external packet writer emits for
this signature are embedded as packet_bytes. -/
structure Signature (Key : Type) where
  check : Key → Except Nat Unit
  key_expiration_time : Option Int
  is_primary : Bool
  key_flags : Nat
  preferred_symmetric_algs : List Nat
  preferred_hash_algs : List Nat
  preferred_compression_algs : List Nat
  preferred_aead_algs : List Nat
  revocation_key : Option Nat
  packet_bytes : List Nat

/-- A user id together with its certifying signatures
(types::SignedUser).  id_packet_bytes embeds the serialization of the
user-id packet produced by the external packet layer. -/
structure SignedUser (Key : Type) where
  id : Nat
  id_packet_bytes : List Nat
  signatures : List (Signature Key)

/-- A user attribute together with its certifying signatures
(types::SignedUserAttribute).  attr_packet_bytes embeds the
serialization of the attribute packet. -/
structure SignedUserAttribute (Key : Type) where
  attr : Nat
  attr_packet_bytes : List Nat
  signatures : List (Signature Key)

/-- Shared details between secret and public keys
(SignedKeyDetails in shared.rs). -/
structure SignedKeyDetails (Key : Type) where
  revocation_signatures : List (Signature Key)
  direct_signatures : List (Signature Key)
  users : List (SignedUser Key)
  user_attributes : List (SignedUserAttribute Key)

variable {Key : Type}

/-- SignedKeyDetails::new — retains users and user attributes with a
non-empty signature list (Vec::retain keeps order) and stores the
signature lists unchanged. -/
def SignedKeyDetails.new (revocation_signatures direct_signatures : List (Signature Key))
    (users : List (SignedUser Key)) (user_attributes : List (SignedUserAttribute Key)) :
    SignedKeyDetails Key :=
  { revocation_signatures := revocation_signatures
    direct_signatures := direct_signatures
    users := users.filter (fun u => !u.signatures.isEmpty)
    user_attributes := user_attributes.filter (fun a => !a.signatures.isEmpty) }

/-- SignedKeyDetails::key_expiration_time — the maximum
key_expiration_time subpacket over all signatures of all users. -/
def SignedKeyDetails.key_expiration_time (d : SignedKeyDetails Key) : Option Int :=
  ((d.users.flatMap (fun u => u.signatures)).filterMap
    (fun s => s.key_expiration_time)).max?

/-- Signature::verify_key — delegated to the external cryptographic
primitive, embedded as the check field. -/
def Signature.verify_key (s : Signature Key) (key : Key) : Except Nat Unit :=
  s.check key

/-- Fail-fast verification of a list of signatures against a key:
returns the first failure, ok when all pass. -/
def verify_each : List (Signature Key) → Key → Except Nat Unit
  | [], _ => Except.ok ()
  | s :: rest, key =>
    match s.check key with
    | Except.ok () => verify_each rest key
    | Except.error e => Except.error e

/-- Modelled from the spec: SignedUser::verify is not under src/; per
the spec every signature of the user is checked against the trust
anchor by the external primitive, failing fast on the first failure. -/
def SignedUser.verify (u : SignedUser Key) (key : Key) : Except Nat Unit :=
  verify_each u.signatures key

/-- Modelled from the spec: SignedUserAttribute::verify is not under
src/; per the spec every signature of the attribute is checked against
the trust anchor, failing fast on the first failure. -/
def SignedUserAttribute.verify (a : SignedUserAttribute Key) (key : Key) : Except Nat Unit :=
  verify_each a.signatures key

/-- The for-loop of SignedKeyDetails::verify_users: user.verify(key)?
for each user. -/
def verify_user_list : List (SignedUser Key) → Key → Except Nat Unit
  | [], _ => Except.ok ()
  | u :: rest, key =>
    match u.verify key with
    | Except.ok () => verify_user_list rest key
    | Except.error e => Except.error e

/-- The for-loop of SignedKeyDetails::verify_attributes. -/
def verify_attr_list : List (SignedUserAttribute Key) → Key → Except Nat Unit
  | [], _ => Except.ok ()
  | a :: rest, key =>
    match a.verify key with
    | Except.ok () => verify_attr_list rest key
    | Except.error e => Except.error e

/-- The for-loop of verify_revocation_signatures / verify_direct_signatures:
sig.verify_key(key)? for each signature. -/
def verify_key_list : List (Signature Key) → Key → Except Nat Unit
  | [], _ => Except.ok ()
  | s :: rest, key =>
    match s.verify_key key with
    | Except.ok () => verify_key_list rest key
    | Except.error e => Except.error e

/-- SignedKeyDetails::verify_users. -/
def SignedKeyDetails.verify_users (d : SignedKeyDetails Key) (key : Key) : Except Nat Unit :=
  verify_user_list d.users key

/-- SignedKeyDetails::verify_attributes. -/
def SignedKeyDetails.verify_attributes (d : SignedKeyDetails Key) (key : Key) : Except Nat Unit :=
  verify_attr_list d.user_attributes key

/-- SignedKeyDetails::verify_revocation_signatures. -/
def SignedKeyDetails.verify_revocation_signatures (d : SignedKeyDetails Key) (key : Key) :
    Except Nat Unit :=
  verify_key_list d.revocation_signatures key

/-- SignedKeyDetails::verify_direct_signatures. -/
def SignedKeyDetails.verify_direct_signatures (d : SignedKeyDetails Key) (key : Key) :
    Except Nat Unit :=
  verify_key_list d.direct_signatures key

/-- SignedKeyDetails::verify — users, then attributes, then revocation
signatures, then direct signatures, each step with the question-mark
operator (propagate the first error). -/
def SignedKeyDetails.verify (d : SignedKeyDetails Key) (key : Key) : Except Nat Unit :=
  match d.verify_users key with
  | Except.error e => Except.error e
  | Except.ok () =>
    match d.verify_attributes key with
    | Except.error e => Except.error e
    | Except.ok () =>
      match d.verify_revocation_signatures key with
      | Except.error e => Except.error e
      | Except.ok () => d.verify_direct_signatures key

/-- State-passing form of verify: Rust passes self by immutable
reference, so the translation returns the details value alongside the
result. -/
def SignedKeyDetails.verify_st (d : SignedKeyDetails Key) (key : Key) :
    SignedKeyDetails Key × Except Nat Unit :=
  (d, d.verify key)

/-- Modelled from the spec: KeyDetails (composed::key) is not under
src/; per the spec it is the unsigned projection holding the identity
lists, one capability-flag set, the four preference lists and the
optional designated-revocation-key. -/
structure KeyDetails where
  users : List Nat
  user_attributes : List Nat
  keyflags : Nat
  preferred_symmetric_algorithms : List Nat
  preferred_hash_algorithms : List Nat
  preferred_compression_algorithms : List Nat
  preferred_aead_algorithms : List Nat
  revocation_key : Option Nat

/-- Modelled from the spec: KeyDetails::new_direct is not under src/;
it assembles the projection from its fields. -/
def KeyDetails.new_direct (users : List Nat) (user_attributes : List Nat)
    (keyflags : Nat) (ps ph pc pa : List Nat) (rk : Option Nat) : KeyDetails :=
  { users := users
    user_attributes := user_attributes
    keyflags := keyflags
    preferred_symmetric_algorithms := ps
    preferred_hash_algorithms := ph
    preferred_compression_algorithms := pc
    preferred_aead_algorithms := pa
    revocation_key := rk }

/-- Modelled from the spec: SignedUser::is_primary is not under src/;
a user is flagged primary when one of its signatures carries the
primary flag. -/
def SignedUser.is_primary (u : SignedUser Key) : Bool :=
  u.signatures.any (fun s => s.is_primary)

/-- SignedKeyDetails::as_unsigned.  The expect("invalid primary user")
panic on a primary user with no signatures is embedded as none; the
successful return is some.  KeyFlags::default() is the empty bitset 0,
and the empty SmallVecs are empty lists. -/
def SignedKeyDetails.as_unsigned (d : SignedKeyDetails Key) : Option KeyDetails :=
  match (d.users.find? (fun u => u.is_primary)).or d.users.head? with
  | some primary_user =>
    match primary_user.signatures.head? with
    | none => none
    | some primary_sig =>
      some (KeyDetails.new_direct
        (d.users.map (fun u => u.id))
        (d.user_attributes.map (fun a => a.attr))
        primary_sig.key_flags
        primary_sig.preferred_symmetric_algs
        primary_sig.preferred_hash_algs
        primary_sig.preferred_compression_algs
        primary_sig.preferred_aead_algs
        primary_sig.revocation_key)
  | none =>
    some (KeyDetails.new_direct
      (d.users.map (fun u => u.id))
      (d.user_attributes.map (fun a => a.attr))
      0 [] [] [] [] none)

/-- Modelled from the spec: packet::write_packet is not under src/; the
sink is embedded as a byte accumulator and the write appends the
signature packet bytes. -/
def write_packet (w : List Nat) (s : Signature Key) : List Nat :=
  w ++ s.packet_bytes

/-- Modelled from the spec: SignedUser::to_writer is not under src/;
per the wire contract the identity is written followed by its
signatures. -/
def SignedUser.to_writer (u : SignedUser Key) (w : List Nat) : List Nat :=
  u.signatures.foldl write_packet (w ++ u.id_packet_bytes)

/-- Modelled from the spec: SignedUserAttribute::to_writer is not under
src/; the attribute is written followed by its signatures. -/
def SignedUserAttribute.to_writer (a : SignedUserAttribute Key) (w : List Nat) : List Nat :=
  a.signatures.foldl write_packet (w ++ a.attr_packet_bytes)

/-- Serialize::to_writer for SignedKeyDetails — four sequential loops:
revocation signatures, direct signatures, users, user attributes. -/
def SignedKeyDetails.to_writer (d : SignedKeyDetails Key) (w : List Nat) : List Nat :=
  let w1 := d.revocation_signatures.foldl write_packet w
  let w2 := d.direct_signatures.foldl write_packet w1
  let w3 := d.users.foldl (fun acc u => u.to_writer acc) w2
  d.user_attributes.foldl (fun acc a => a.to_writer acc) w3

/-- Modelled from the spec: SignedPublicKey is not under src/; a full
certificate value without secret material, opaque to this module. -/
structure SignedPublicKey where
  val : Nat

/-- Modelled from the spec: SignedSecretKey is not under src/; a full
certificate value carrying secret material, opaque to this module. -/
structure SignedSecretKey where
  val : Nat

/-- PublicOrSecret — the certificate variant. -/
inductive PublicOrSecret where
  | Public (k : SignedPublicKey)
  | Secret (k : SignedSecretKey)

/-- PublicOrSecret::into_secret — the panic on a public value is
embedded as none, the successful narrowing as some. -/
def PublicOrSecret.into_secret : PublicOrSecret → Option SignedSecretKey
  | PublicOrSecret.Public _ => none
  | PublicOrSecret.Secret k => some k

/-- PublicOrSecret::into_public — the panic on a secret value is
embedded as none, the successful narrowing as some. -/
def PublicOrSecret.into_public : PublicOrSecret → Option SignedPublicKey
  | PublicOrSecret.Secret _ => none
  | PublicOrSecret.Public k => some k

/-- PublicOrSecret::is_public. -/
def PublicOrSecret.is_public : PublicOrSecret → Bool
  | PublicOrSecret.Secret _ => false
  | PublicOrSecret.Public _ => true

/-- PublicOrSecret::is_secret. -/
def PublicOrSecret.is_secret : PublicOrSecret → Bool
  | PublicOrSecret.Secret _ => true
  | PublicOrSecret.Public _ => false

/-! ### Helper lemmas -/

theorem verify_each_append_ok (l1 l2 : List (Signature Key)) (key : Key)
    (h : verify_each l1 key = Except.ok ()) :
    verify_each (l1 ++ l2) key = verify_each l2 key := by
  induction l1 with
  | nil => rfl
  | cons s t ih =>
    rw [verify_each] at h
    rw [List.cons_append, verify_each]
    cases hc : s.check key with
    | ok u =>
      cases u
      rw [hc] at h
      simp only [] at h
      exact ih h
    | error e =>
      rw [hc] at h
      simp at h

theorem verify_each_append_error (l1 l2 : List (Signature Key)) (key : Key) (e : Nat)
    (h : verify_each l1 key = Except.error e) :
    verify_each (l1 ++ l2) key = Except.error e := by
  induction l1 with
  | nil => simp [verify_each] at h
  | cons s t ih =>
    rw [verify_each] at h
    rw [List.cons_append, verify_each]
    cases hc : s.check key with
    | ok u =>
      cases u
      rw [hc] at h
      simp only [] at h
      exact ih h
    | error e2 =>
      rw [hc] at h
      simp only [] at h
      rw [h]

theorem verify_each_ok_iff (l : List (Signature Key)) (key : Key) :
    verify_each l key = Except.ok () ↔ ∀ s ∈ l, s.check key = Except.ok () := by
  induction l with
  | nil => simp [verify_each]
  | cons s t ih =>
    cases hc : s.check key with
    | ok u =>
      cases u
      simp [verify_each, hc, ih]
    | error e =>
      simp [verify_each, hc]

theorem verify_key_list_eq_each (l : List (Signature Key)) (key : Key) :
    verify_key_list l key = verify_each l key := by
  induction l with
  | nil => rfl
  | cons s t ih =>
    cases hc : s.check key with
    | ok u =>
      cases u
      simp [verify_key_list, verify_each, Signature.verify_key, hc, ih]
    | error e =>
      simp [verify_key_list, verify_each, Signature.verify_key, hc]

theorem verify_user_list_eq_each (l : List (SignedUser Key)) (key : Key) :
    verify_user_list l key = verify_each (l.flatMap (fun u => u.signatures)) key := by
  induction l with
  | nil => rfl
  | cons u t ih =>
    cases hc : verify_each u.signatures key with
    | ok v =>
      cases v
      rw [List.flatMap_cons, verify_each_append_ok _ _ _ hc, ← ih]
      simp [verify_user_list, SignedUser.verify, hc]
    | error e =>
      rw [List.flatMap_cons, verify_each_append_error _ _ _ _ hc]
      simp [verify_user_list, SignedUser.verify, hc]

theorem verify_attr_list_eq_each (l : List (SignedUserAttribute Key)) (key : Key) :
    verify_attr_list l key = verify_each (l.flatMap (fun a => a.signatures)) key := by
  induction l with
  | nil => rfl
  | cons a t ih =>
    cases hc : verify_each a.signatures key with
    | ok v =>
      cases v
      rw [List.flatMap_cons, verify_each_append_ok _ _ _ hc, ← ih]
      simp [verify_attr_list, SignedUserAttribute.verify, hc]
    | error e =>
      rw [List.flatMap_cons, verify_each_append_error _ _ _ _ hc]
      simp [verify_attr_list, SignedUserAttribute.verify, hc]

/-- All signatures of the bundle, in the order verify checks them:
users, then user attributes, then revocation signatures, then direct
signatures. -/
def ordered_signatures (d : SignedKeyDetails Key) : List (Signature Key) :=
  d.users.flatMap (fun u => u.signatures)
    ++ (d.user_attributes.flatMap (fun a => a.signatures)
      ++ (d.revocation_signatures ++ d.direct_signatures))

/-- C1: verify(key) equals the fail-fast check of all signatures in the
group order users, user attributes, revocation signatures, direct
signatures — it returns the first failure encountered — and it succeeds
iff every signature of every group individually verifies against the
key. -/
theorem verify_fail_fast (d : SignedKeyDetails Key) (key : Key) :
    d.verify key = verify_each (ordered_signatures d) key ∧
    (d.verify key = Except.ok () ↔
      ∀ s ∈ ordered_signatures d, s.check key = Except.ok ()) := by
  have hmain : d.verify key = verify_each (ordered_signatures d) key := by
    unfold SignedKeyDetails.verify SignedKeyDetails.verify_users
      SignedKeyDetails.verify_attributes SignedKeyDetails.verify_revocation_signatures
      SignedKeyDetails.verify_direct_signatures ordered_signatures
    rw [verify_user_list_eq_each, verify_attr_list_eq_each, verify_key_list_eq_each,
      verify_key_list_eq_each]
    cases h1 : verify_each (d.users.flatMap (fun u => u.signatures)) key with
    | error e => rw [verify_each_append_error _ _ _ _ h1]
    | ok u =>
      cases u
      rw [verify_each_append_ok _ _ _ h1]
      cases h2 : verify_each (d.user_attributes.flatMap (fun a => a.signatures)) key with
      | error e => rw [verify_each_append_error _ _ _ _ h2]
      | ok u =>
        cases u
        rw [verify_each_append_ok _ _ _ h2]
        cases h3 : verify_each d.revocation_signatures key with
        | error e => rw [verify_each_append_error _ _ _ _ h3]
        | ok u =>
          cases u
          rw [verify_each_append_ok _ _ _ h3]
  exact ⟨hmain, by rw [hmain]; exact verify_each_ok_iff _ _⟩

/-! ### Maximum lemmas for the expiration calculator -/

theorem foldl_max_mem (l : List Int) : ∀ a : Int, l.foldl max a ∈ a :: l := by
  induction l with
  | nil => intro a; simp
  | cons b t ih =>
    intro a
    rw [List.foldl_cons]
    rcases List.mem_cons.mp (ih (max a b)) with h | h
    · rcases max_choice a b with hm | hm
      · rw [h, hm]; exact List.mem_cons_self _ _
      · rw [h, hm]; exact List.mem_cons_of_mem _ (List.mem_cons_self _ _)
    · exact List.mem_cons_of_mem _ (List.mem_cons_of_mem _ h)

theorem le_foldl_max (l : List Int) :
    ∀ a : Int, a ≤ l.foldl max a ∧ ∀ x ∈ l, x ≤ l.foldl max a := by
  induction l with
  | nil => intro a; simp
  | cons b t ih =>
    intro a
    rw [List.foldl_cons]
    obtain ⟨h1, h2⟩ := ih (max a b)
    refine ⟨le_trans (le_max_left a b) h1, ?_⟩
    intro x hx
    rcases List.mem_cons.mp hx with h | hx
    · rw [h]; exact le_trans (le_max_right a b) h1
    · exact h2 x hx

theorem max?_eq_some_spec (l : List Int) (t : Int) (h : l.max? = some t) :
    t ∈ l ∧ ∀ x ∈ l, x ≤ t := by
  cases l with
  | nil => simp [List.max?] at h
  | cons a s =>
    rw [List.max?] at h
    injection h with h
    subst h
    refine ⟨foldl_max_mem s a, ?_⟩
    intro x hx
    rcases List.mem_cons.mp hx with h | hx
    · rw [h]; exact (le_foldl_max s a).1
    · exact (le_foldl_max s a).2 x hx

theorem max?_eq_none_spec (l : List Int) : l.max? = none ↔ l = [] := by
  cases l <;> simp [List.max?]

/-- C3: key_expiration_time() is none exactly when no signature of any
retained user declares a key-expiration offset, any returned value is an
offset declared by some signature of some retained user and is maximal
among all declared offsets, and the result does not depend on the
revocation signatures, direct signatures or user attributes. -/
theorem key_expiration_max_users (d : SignedKeyDetails Key) :
    (d.key_expiration_time = none ↔
      ∀ u ∈ d.users, ∀ s ∈ u.signatures, s.key_expiration_time = none) ∧
    (∀ t, d.key_expiration_time = some t →
      (∃ u ∈ d.users, ∃ s ∈ u.signatures, s.key_expiration_time = some t) ∧
      (∀ u ∈ d.users, ∀ s ∈ u.signatures, ∀ x, s.key_expiration_time = some x → x ≤ t)) ∧
    (∀ rs ds uas, (SignedKeyDetails.mk rs ds d.users uas).key_expiration_time
        = d.key_expiration_time) := by
  refine ⟨?_, ?_, fun _ _ _ => rfl⟩
  · unfold SignedKeyDetails.key_expiration_time
    rw [max?_eq_none_spec, List.filterMap_eq_nil_iff]
    constructor
    · intro h u hu s hs
      exact h s (List.mem_flatMap.mpr ⟨u, hu, hs⟩)
    · intro h s hs
      obtain ⟨u, hu, hsin⟩ := List.mem_flatMap.mp hs
      exact h u hu s hsin
  · intro t ht
    unfold SignedKeyDetails.key_expiration_time at ht
    obtain ⟨hmem, hbound⟩ := max?_eq_some_spec _ _ ht
    constructor
    · obtain ⟨s, hs, hteq⟩ := List.mem_filterMap.mp hmem
      obtain ⟨u, hu, hsin⟩ := List.mem_flatMap.mp hs
      exact ⟨u, hu, s, hsin, hteq⟩
    · intro u hu s hs x hx
      exact hbound x (List.mem_filterMap.mpr ⟨s, List.mem_flatMap.mpr ⟨u, hu, hs⟩, hx⟩)

/-- C4: construction retains exactly the input users and attributes
whose signature list is non-empty, in input order (stated as equality
with the filter on that condition, together with the membership
characterization), and stores the revocation and direct signature lists
unchanged — no other filtering. -/
theorem new_retains_signed_entries (rs ds : List (Signature Key))
    (us : List (SignedUser Key)) (uas : List (SignedUserAttribute Key)) :
    (SignedKeyDetails.new rs ds us uas).users
        = us.filter (fun u => decide (0 < u.signatures.length)) ∧
    (∀ u, u ∈ (SignedKeyDetails.new rs ds us uas).users ↔ u ∈ us ∧ u.signatures ≠ []) ∧
    (SignedKeyDetails.new rs ds us uas).user_attributes
        = uas.filter (fun a => decide (0 < a.signatures.length)) ∧
    (∀ a, a ∈ (SignedKeyDetails.new rs ds us uas).user_attributes ↔
        a ∈ uas ∧ a.signatures ≠ []) ∧
    (SignedKeyDetails.new rs ds us uas).revocation_signatures = rs ∧
    (SignedKeyDetails.new rs ds us uas).direct_signatures = ds := by
  refine ⟨?_, ?_, ?_, ?_, rfl, rfl⟩
  · exact List.filter_congr (fun u _ => by cases h : u.signatures <;> simp [h])
  · intro u
    simp only [SignedKeyDetails.new, List.mem_filter]
    cases h : u.signatures <;> simp [h]
  · exact List.filter_congr (fun a _ => by cases h : a.signatures <;> simp [h])
  · intro a
    simp only [SignedKeyDetails.new, List.mem_filter]
    cases h : a.signatures <;> simp [h]

/-! ### Serialization fold lemmas -/

theorem foldl_write_packet_eq (l : List (Signature Key)) (w : List Nat) :
    l.foldl write_packet w = w ++ l.flatMap (fun s => s.packet_bytes) := by
  induction l generalizing w with
  | nil => simp
  | cons s t ih => simp [write_packet, ih, List.append_assoc]

theorem foldl_user_to_writer_eq (l : List (SignedUser Key)) (w : List Nat) :
    l.foldl (fun acc u => u.to_writer acc) w
      = w ++ l.flatMap
          (fun u => u.id_packet_bytes ++ u.signatures.flatMap (fun s => s.packet_bytes)) := by
  induction l generalizing w with
  | nil => simp
  | cons u t ih =>
    rw [List.foldl_cons, ih, SignedUser.to_writer, foldl_write_packet_eq]
    simp [List.append_assoc]

theorem foldl_attr_to_writer_eq (l : List (SignedUserAttribute Key)) (w : List Nat) :
    l.foldl (fun acc a => a.to_writer acc) w
      = w ++ l.flatMap
          (fun a => a.attr_packet_bytes ++ a.signatures.flatMap (fun s => s.packet_bytes)) := by
  induction l generalizing w with
  | nil => simp
  | cons a t ih =>
    rw [List.foldl_cons, ih, SignedUserAttribute.to_writer, foldl_write_packet_eq]
    simp [List.append_assoc]

/-- C5: serialization writes, in this exact order, every revocation
signature, then every direct signature, then each retained user (its
identity followed by its signatures), then each retained user attribute
(the attribute followed by its signatures), each group in stored
sequence order. -/
theorem to_writer_wire_order (d : SignedKeyDetails Key) (w : List Nat) :
    d.to_writer w
      = w ++ d.revocation_signatures.flatMap (fun s => s.packet_bytes)
          ++ d.direct_signatures.flatMap (fun s => s.packet_bytes)
          ++ d.users.flatMap
              (fun u => u.id_packet_bytes ++ u.signatures.flatMap (fun s => s.packet_bytes))
          ++ d.user_attributes.flatMap
              (fun a => a.attr_packet_bytes ++ a.signatures.flatMap (fun s => s.packet_bytes)) := by
  simp [SignedKeyDetails.to_writer, foldl_write_packet_eq, foldl_user_to_writer_eq,
    foldl_attr_to_writer_eq, List.append_assoc]

/-- C6: with no retained users, as_unsigned() succeeds with empty
capability flags, all four preference lists empty, no designated
revocation key, an empty identity list, and the attribute list still
holding every retained attribute. -/
theorem as_unsigned_no_users_defaults (d : SignedKeyDetails Key) (h : d.users = []) :
    d.as_unsigned = some (KeyDetails.new_direct []
      (d.user_attributes.map (fun a => a.attr)) 0 [] [] [] [] none) := by
  simp [SignedKeyDetails.as_unsigned, h]

theorem mem_of_or_find_head (l : List (SignedUser Key)) (p : SignedUser Key → Bool)
    (u : SignedUser Key) (h : (l.find? p).or l.head? = some u) : u ∈ l := by
  cases hf : l.find? p with
  | some v =>
    rw [hf] at h
    simp only [Option.or] at h
    injection h with h
    exact h ▸ List.mem_of_find?_eq_some hf
  | none =>
    rw [hf] at h
    simp only [Option.or] at h
    cases l with
    | nil => simp at h
    | cons a t =>
      simp only [List.head?] at h
      injection h with h
      exact h ▸ List.mem_cons_self _ _

/-- C7: as_unsigned() is total on every value produced by construction:
the construction filter guarantees every retained user has a signature,
so the fatal branch for a primary user with no signatures is
unreachable. -/
theorem as_unsigned_total_after_new (rs ds : List (Signature Key))
    (us : List (SignedUser Key)) (uas : List (SignedUserAttribute Key)) :
    ((SignedKeyDetails.new rs ds us uas).as_unsigned).isSome = true := by
  unfold SignedKeyDetails.as_unsigned
  cases hsel : ((SignedKeyDetails.new rs ds us uas).users.find? (fun u => u.is_primary)).or
      (SignedKeyDetails.new rs ds us uas).users.head? with
  | none => simp
  | some pu =>
    have hm : pu ∈ (SignedKeyDetails.new rs ds us uas).users :=
      mem_of_or_find_head _ _ _ hsel
    have hne : pu.signatures ≠ [] := by
      intro hnil
      simp [SignedKeyDetails.new, List.mem_filter, hnil] at hm
    cases hh : pu.signatures.head? with
    | none => exact absurd (List.head?_eq_none_iff.mp hh) hne
    | some ps => simp [hh]

/-- Stated from the spec for comparison: the primary user is the first
retained user flagged primary, or the first retained user in list order
when none is flagged. -/
def primary_user_spec (us : List (SignedUser Key)) : Option (SignedUser Key) :=
  match us.find? (fun u => u.is_primary) with
  | some u => some u
  | none => us.head?

theorem primary_spec_eq_or (us : List (SignedUser Key)) :
    primary_user_spec us = (us.find? (fun u => u.is_primary)).or us.head? := by
  unfold primary_user_spec
  cases us.find? (fun u => u.is_primary) <;> simp [Option.or]

/-- C2: with at least one retained user (each carrying a signature),
as_unsigned() takes the first user flagged primary — or the first user
when none is flagged — and copies the capability flags, the four
preference lists and the optional designated-revocation-key from that
user's first signature, while the identity list holds all retained
users' ids and the attribute list all retained attributes. -/
theorem as_unsigned_primary_projection (d : SignedKeyDetails Key)
    (h1 : d.users ≠ []) (h2 : ∀ u ∈ d.users, u.signatures ≠ []) :
    ∃ pu ps, primary_user_spec d.users = some pu ∧ pu.signatures.head? = some ps ∧
      d.as_unsigned = some (KeyDetails.new_direct
        (d.users.map (fun u => u.id)) (d.user_attributes.map (fun a => a.attr))
        ps.key_flags ps.preferred_symmetric_algs ps.preferred_hash_algs
        ps.preferred_compression_algs ps.preferred_aead_algs ps.revocation_key) := by
  cases hsel : (d.users.find? (fun u => u.is_primary)).or d.users.head? with
  | none =>
    exfalso
    cases hf : d.users.find? (fun u => u.is_primary) with
    | some v => rw [hf] at hsel; simp [Option.or] at hsel
    | none =>
      rw [hf] at hsel
      simp only [Option.or] at hsel
      exact h1 (List.head?_eq_none_iff.mp hsel)
  | some pu =>
    have hm : pu ∈ d.users := mem_of_or_find_head _ _ _ hsel
    have hne := h2 pu hm
    cases hh : pu.signatures.head? with
    | none => exact absurd (List.head?_eq_none_iff.mp hh) hne
    | some ps =>
      refine ⟨pu, ps, ?_, hh, ?_⟩
      · rw [primary_spec_eq_or, hsel]
      · unfold SignedKeyDetails.as_unsigned
        rw [hsel]
        simp [hh]

/-- C8: into_secret() returns the inner secret certificate exactly on
the secret variant and is the fatal branch (none) on the public one;
into_public() dually; is_public and is_secret are mutually exclusive
and exhaustive. -/
theorem variant_narrowing :
    (∀ sk : SignedSecretKey,
      (PublicOrSecret.Secret sk).into_secret = some sk ∧
      (PublicOrSecret.Secret sk).into_public = none ∧
      (PublicOrSecret.Secret sk).is_secret = true ∧
      (PublicOrSecret.Secret sk).is_public = false) ∧
    (∀ pk : SignedPublicKey,
      (PublicOrSecret.Public pk).into_public = some pk ∧
      (PublicOrSecret.Public pk).into_secret = none ∧
      (PublicOrSecret.Public pk).is_public = true ∧
      (PublicOrSecret.Public pk).is_secret = false) ∧
    (∀ v : PublicOrSecret, v.is_public = !v.is_secret) := by
  refine ⟨fun sk => ⟨rfl, rfl, rfl, rfl⟩, fun pk => ⟨rfl, rfl, rfl, rfl⟩, fun v => ?_⟩
  cases v <;> rfl

/-- C9: verify is pure — in the state-passing translation the details
value is returned unchanged, and re-running verify on the returned
value with the same key yields the same result with no cached state. -/
theorem verify_pure (d : SignedKeyDetails Key) (key : Key) :
    (d.verify_st key).1 = d ∧
    ((d.verify_st key).1.verify_st key).2 = (d.verify_st key).2 := ⟨rfl, rfl⟩

/-- C10: whenever as_unsigned() succeeds, its identity list is exactly
the id of each retained user in stored order — duplicates preserved —
and its attribute list exactly each retained attribute in stored
order. -/
theorem as_unsigned_identity_lists (d : SignedKeyDetails Key) (kd : KeyDetails)
    (h : d.as_unsigned = some kd) :
    kd.users = d.users.map (fun u => u.id) ∧
    kd.user_attributes = d.user_attributes.map (fun a => a.attr) := by
  unfold SignedKeyDetails.as_unsigned at h
  cases hsel : (d.users.find? (fun u => u.is_primary)).or d.users.head? with
  | none =>
    rw [hsel] at h
    simp only [Option.some.injEq] at h
    subst h
    exact ⟨rfl, rfl⟩
  | some pu =>
    rw [hsel] at h
    cases hh : pu.signatures.head? with
    | none => simp [hh] at h
    | some ps =>
      simp only [hh, Option.some.injEq] at h
      subst h
      exact ⟨rfl, rfl⟩

/-! ### Concrete values for witness instantiations -/

/-- A plain self-signature with no subpacket data that always verifies. -/
def sig_plain : Signature Nat :=
  { check := fun _ => Except.ok ()
    key_expiration_time := none
    is_primary := false
    key_flags := 0
    preferred_symmetric_algs := []
    preferred_hash_algs := []
    preferred_compression_algs := []
    preferred_aead_algs := []
    revocation_key := none
    packet_bytes := [] }

/-- A signature carrying the primary-user flag and distinctive
metadata. -/
def sig_primary : Signature Nat :=
  { check := fun _ => Except.ok ()
    key_expiration_time := some 7
    is_primary := true
    key_flags := 3
    preferred_symmetric_algs := [9]
    preferred_hash_algs := [8]
    preferred_compression_algs := [2]
    preferred_aead_algs := [1]
    revocation_key := some 4
    packet_bytes := [5] }

def user_a : SignedUser Nat := ⟨10, [], [sig_plain]⟩

def user_b : SignedUser Nat := ⟨11, [], [sig_primary, sig_plain]⟩

def user_dup : SignedUser Nat := ⟨7, [], [sig_plain]⟩

def attr_a : SignedUserAttribute Nat := ⟨30, [], [sig_plain]⟩

def details_c2 : SignedKeyDetails Nat := ⟨[], [], [user_a, user_b], [attr_a]⟩

def details_c6 : SignedKeyDetails Nat := ⟨[sig_plain], [], [], [attr_a]⟩

def details_c10 : SignedKeyDetails Nat := ⟨[], [], [user_dup, user_dup], [attr_a]⟩

/-- C2 witness: a bundle with a non-primary first user and a flagged
second user satisfies both hypotheses, and the projection holds on
it. -/
theorem as_unsigned_primary_projection_witness :
    details_c2.users ≠ [] ∧ (∀ u ∈ details_c2.users, u.signatures ≠ []) ∧
    ∃ pu ps, primary_user_spec details_c2.users = some pu ∧
      pu.signatures.head? = some ps ∧
      details_c2.as_unsigned = some (KeyDetails.new_direct
        (details_c2.users.map (fun u => u.id))
        (details_c2.user_attributes.map (fun a => a.attr))
        ps.key_flags ps.preferred_symmetric_algs ps.preferred_hash_algs
        ps.preferred_compression_algs ps.preferred_aead_algs ps.revocation_key) :=
  ⟨by simp [details_c2], by simp [details_c2, user_a, user_b, sig_plain, sig_primary],
    as_unsigned_primary_projection details_c2 (by simp [details_c2])
      (by simp [details_c2, user_a, user_b, sig_plain, sig_primary])⟩

/-- C6 witness: a bundle with no users, one revocation signature and
one attribute satisfies the hypothesis, and the default projection
holds on it. -/
theorem as_unsigned_no_users_defaults_witness :
    details_c6.users = [] ∧
    details_c6.as_unsigned = some (KeyDetails.new_direct []
      (details_c6.user_attributes.map (fun a => a.attr)) 0 [] [] [] [] none) :=
  ⟨rfl, as_unsigned_no_users_defaults details_c6 rfl⟩

/-- C10 witness: a bundle with two users sharing the same id projects
to an identity list with the duplicate preserved. -/
theorem as_unsigned_identity_lists_witness :
    (KeyDetails.new_direct [7, 7] [30] 0 [] [] [] [] none).users
        = details_c10.users.map (fun u => u.id) ∧
    (KeyDetails.new_direct [7, 7] [30] 0 [] [] [] [] none).user_attributes
        = details_c10.user_attributes.map (fun a => a.attr) :=
  as_unsigned_identity_lists details_c10 _ rfl

end Rpgp
